import Mathlib

/-!
Verification of the audio-spectrum SVG generator
(`src/素材/audio_response/svg/audio_spectrum_svg.py`).

The spectral pipeline (`calculate_spectrum`) and the SVG renderer
(`generate_svg`) are shallowly embedded here.  Floating-point numbers are
modelled as rationals; the single float phenomenon that matters to the
claims — NumPy's `np.mean` of an *empty* slice returning NaN, and NaN then
propagating through `np.interp`, `np.max` and `np.log1p` — is modelled
with `Option ℚ`, `none` standing for NaN.

The STFT itself (`librosa.stft`) is an external library call; the
magnitude spectrogram it returns is taken as an explicit input `mag`
(rows = frequency bins, columns = time frames), together with the facts
that hold of every real spectrogram (row count = number of FFT bins,
uniform row length, non-negative entries) as hypotheses where needed.
`librosa.fft_frequencies` and the NumPy primitives used after the STFT
are embedded faithfully below.
-/

set_option allowUnsafeReducibility true

attribute [local semireducible] Rat.mul Rat.add Rat.sub Rat.inv Rat.ofScientific

instance {ε α : Type} [DecidableEq ε] [DecidableEq α] : DecidableEq (Except ε α) := fun a b =>
  match a, b with
  | .ok x, .ok y =>
    if h : x = y then isTrue (by rw [h]) else isFalse (fun hc => h (Except.ok.inj hc))
  | .error x, .error y =>
    if h : x = y then isTrue (by rw [h]) else isFalse (fun hc => h (Except.error.inj hc))
  | .ok _, .error _ => isFalse (fun hc => Except.noConfusion hc)
  | .error _, .ok _ => isFalse (fun hc => Except.noConfusion hc)

/-- Python `int()` applied to a rational: truncation toward zero. -/
def pyInt (q : ℚ) : ℤ := if q < 0 then -⌊-q⌋ else ⌊q⌋

/-- Failure modes actually reachable in `calculate_spectrum`:
the explicit `ValueError("请先加载音频文件")` raised when no audio is
loaded, plus the errors raised by the libraries it calls
(`librosa.stft` rejects a non-positive hop length; `np.linspace`
rejects a negative sample count; `np.interp` rejects an empty
sample-point array; `np.max` rejects a zero-size array).
The source defines no `InvalidConfig` or `EmptyAudio` error of its own. -/
inductive PyErr where
  | notLoaded
  | stftParam
  | negLinspace
  | emptyInterp
  | emptyMax
  deriving DecidableEq, Repr

/-- The `[spectrum]` section of the configuration, as read by
`calculate_spectrum`. -/
structure SpectrumCfg where
  time_window : ℚ
  num_bars : ℤ
  bars_per_second : ℚ
  freq_min : ℚ
  freq_max : ℚ
  deriving DecidableEq, Repr

/-- `hop_length = int(self.sample_rate * time_window)`. -/
def hopLength (sr : ℕ) (cfg : SpectrumCfg) : ℤ := pyInt ((sr : ℚ) * cfg.time_window)

/-- `n_fft = min(2048, hop_length * 2)`. -/
def nFFT (sr : ℕ) (cfg : SpectrumCfg) : ℕ := min 2048 (2 * hopLength sr cfg).toNat

/-- `librosa.fft_frequencies(sr, n_fft)`: bin centre `k * sr / n_fft`
for `k = 0 .. n_fft/2`. -/
def fftFreqs (sr nfft : ℕ) : List ℚ :=
  (List.range (nfft / 2 + 1)).map (fun (k : ℕ) => (k : ℚ) * sr / nfft)

/-- `freq_mask = (freqs >= freq_min) & (freqs <= freq_max)`. -/
def freqMask (sr : ℕ) (cfg : SpectrumCfg) : List Bool :=
  (fftFreqs sr (nFFT sr cfg)).map (fun f => decide (cfg.freq_min ≤ f ∧ f ≤ cfg.freq_max))

/-- `magnitude[freq_mask, :]`: keep the rows whose mask entry is true. -/
def selectRows (mask : List Bool) (mag : List (List ℚ)) : List (List ℚ) :=
  (mask.zip mag).filterMap (fun p => if p.1 then some p.2 else none)

/-- Number of STFT time frames: the column count of the magnitude matrix. -/
def numFrames (mag : List (List ℚ)) : ℕ := (mag.headD []).length

/-- Mean of column `t` across the selected rows. -/
def colMean (rows : List (List ℚ)) (t : ℕ) : ℚ :=
  (rows.map (fun r => r.getD t 0)).sum / (rows.length : ℚ)

/-- `energy = np.mean(magnitude_filtered, axis=0)`.  NumPy's mean of an
empty slice is NaN (with a RuntimeWarning, not an exception): with no
selected rows every frame's energy is NaN, modelled as `none`. -/
def frameEnergies (rows : List (List ℚ)) (T : ℕ) : List (Option ℚ) :=
  if rows.isEmpty then List.replicate T none
  else (List.range T).map (fun t => some (colMean rows t))

/-- `np.linspace(0, 1, n)`. -/
def linspace01 (n : ℕ) : List ℚ :=
  if n = 1 then [0] else (List.range n).map (fun (i : ℕ) => (i : ℚ) / ((n : ℚ) - 1))

/-- One point of `np.interp`: scan the (sorted) sample points; clamp at
either end, linearly interpolate inside an interval.  NaN values (`none`)
propagate exactly as they do through NumPy's arithmetic. -/
def npInterpPt (x : ℚ) : List (ℚ × Option ℚ) → Option ℚ
  | [] => none
  | [(_, f)] => f
  | (x1, f1) :: (x2, f2) :: rest =>
    if x ≤ x1 then f1
    else if x ≤ x2 then
      match f1, f2 with
      | some a, some b => some (a + (x - x1) * (b - a) / (x2 - x1))
      | _, _ => none
    else npInterpPt x ((x2, f2) :: rest)

/-- `np.interp(x_new, x_old, fp)` for equal-length `x_old`/`fp`. -/
def npInterpList (xnew xold : List ℚ) (fp : List (Option ℚ)) : List (Option ℚ) :=
  xnew.map (fun x => npInterpPt x (xold.zip fp))

/-- The resampling step: skipped when `len(energy) == num_bars`;
`np.linspace(0, 1, num_bars)` rejects a negative count; `np.interp`
rejects an empty sample-point array. -/
def resampleE (energy : List (Option ℚ)) (nb : ℤ) : Except PyErr (List (Option ℚ)) :=
  if (energy.length : ℤ) = nb then .ok energy
  else if nb < 0 then .error .negLinspace
  else if energy.isEmpty then .error .emptyInterp
  else .ok (npInterpList (linspace01 nb.toNat) (linspace01 energy.length) energy)

/-- Maximum of a nonempty list of rationals. -/
def qListMax : List ℚ → ℚ
  | [] => 0
  | h :: t => t.foldl max h

/-- `np.max(energy)`: raises on a zero-size array; returns NaN (`none`)
if any entry is NaN. -/
def npMaxE (l : List (Option ℚ)) : Except PyErr (Option ℚ) :=
  if l.isEmpty then .error .emptyMax
  else if l.any (fun o => o.isNone) then .ok none
  else .ok (some (qListMax (l.filterMap id)))

/-- `if np.max(energy) > 0: energy = energy / np.max(energy)`.
A NaN maximum compares false against 0, so normalization is skipped. -/
def normalizeE (e : List (Option ℚ)) : Except PyErr (List (Option ℚ)) :=
  (npMaxE e).map (fun m =>
    match m with
    | some mv => if 0 < mv then e.map (Option.map (fun v => v / mv)) else e
    | none => e)

/-- Bar-count resolution: `if num_bars == 0: num_bars = int(duration * bars_per_second)`
with `duration = len(samples) / sample_rate`.  Note the `int()` truncation
and the absence of any `>= 1` check. -/
def resolvedBars (samples : List ℚ) (sr : ℕ) (cfg : SpectrumCfg) : ℤ :=
  if cfg.num_bars = 0 then pyInt ((samples.length : ℚ) / (sr : ℚ) * cfg.bars_per_second)
  else cfg.num_bars

/-- The spectral pipeline up to (and including) normalization, i.e.
everything in `calculate_spectrum` except the final `np.log1p`
compression.  `audio` is `None` before `load_audio` has succeeded;
`mag` is the magnitude spectrogram `np.abs(librosa.stft(...))`. -/
def calc_core (audio : Option (List ℚ × ℕ)) (cfg : SpectrumCfg) (mag : List (List ℚ)) :
    Except PyErr (List (Option ℚ)) :=
  match audio with
  | none => .error .notLoaded
  | some (samples, sr) =>
    let nb : ℤ := resolvedBars samples sr cfg
    if hopLength sr cfg ≤ 0 then .error .stftParam
    else
      let rows := selectRows (freqMask sr cfg) mag
      let energy := frameEnergies rows (numFrames mag)
      (resampleE energy nb).bind normalizeE

/-- The dynamic-range compression `np.log1p(energy * 10) / np.log1p(10)`,
i.e. `ln(1 + 10 x) / ln 11`. -/
noncomputable def compress (x : ℝ) : ℝ := Real.log (1 + 10 * x) / Real.log 11

/-- Full embedding of `calculate_spectrum`: the computable core followed
by the elementwise logarithmic compression (NaN entries stay NaN). -/
noncomputable def calculate_spectrum (audio : Option (List ℚ × ℕ)) (cfg : SpectrumCfg)
    (mag : List (List ℚ)) : Except PyErr (List (Option ℝ)) :=
  Except.map (fun l => l.map (Option.map (fun (q : ℚ) => compress (q : ℝ))))
    (calc_core audio cfg mag)

/-!  The SVG side: `generate_svg` minus its file write and progress bar.
Numbers are rationals; `str(x)` on a config number is modelled by
`ratStr`, and the Python format specifier `:.2f` (used for bar heights
and y-coordinates) by `fmt2`, exact decimal rounding to two places with
ties to even, which is locale-independent and always prints exactly two
digits after the decimal point. -/

/-- The `[svg]` configuration section read by `generate_svg`. -/
structure SvgCfg where
  width : ℚ
  height : ℚ
  bar_width : ℚ
  bar_spacing : ℚ
  bar_color : String
  border_radius : ℚ
  min_bar_height : ℚ
  max_bar_height_percent : ℚ
  background_color : String
  deriving DecidableEq, Repr

/-- `svg_width = num_bars * (bar_width + bar_spacing) - bar_spacing`. -/
def computedWidth (n : ℕ) (c : SvgCfg) : ℚ := n * (c.bar_width + c.bar_spacing) - c.bar_spacing

/-- The canvas-width resolution conditional of `generate_svg`:
the true branch keeps the computed width (a self-assignment), the else
branch selects the configured width. -/
def svgWidth (n : ℕ) (c : SvgCfg) : ℚ :=
  if c.width = 0 ∨ c.width < computedWidth n c then computedWidth n c else c.width

/-- Decimal rendering of a configuration number interpolated into the
markup (model of Python `str`). -/
def ratStr (q : ℚ) : String := toString q

/-- Decimal digit character for `n % 10`. -/
def digCh (n : ℕ) : Char :=
  match n % 10 with
  | 0 => '0' | 1 => '1' | 2 => '2' | 3 => '3' | 4 => '4'
  | 5 => '5' | 6 => '6' | 7 => '7' | 8 => '8' | _ => '9'

/-- Rounding to the nearest integer with ties to even, as Python's
fixed-precision formatting does. -/
def roundHalfEven (q : ℚ) : ℤ :=
  if q - ⌊q⌋ < 1/2 then ⌊q⌋
  else if 1/2 < q - ⌊q⌋ then ⌊q⌋ + 1
  else if 2 ∣ ⌊q⌋ then ⌊q⌋ else ⌊q⌋ + 1

/-- The Python format `{x:.2f}`: optional sign, integer part, and fixed
two digits after the decimal point. -/
def fmt2 (q : ℚ) : String :=
  let n : ℤ := roundHalfEven (q * 100)
  String.mk ((if n < 0 then ['-'] else []) ++ ((toString (n.natAbs / 100)).data
    ++ ['.', digCh (n.natAbs / 10), digCh n.natAbs]))

/-- Vertical placement of a bar (`vertical_align`; anything unrecognized
falls back to centering). -/
def barY (va : String) (svg_height bar_height : ℚ) : ℚ :=
  if va = "center" then (svg_height - bar_height) / 2
  else if va = "top" then 0
  else if va = "bottom" then svg_height - bar_height
  else (svg_height - bar_height) / 2

/-- One `<rect id="bar_i" .../>` line of the markup (four-space indent,
corner radii only when `border_radius > 0`). -/
def barRectLine (i : ℕ) (c : SvgCfg) (bh y x : ℚ) : String :=
  "    <rect id=\"bar_" ++ toString i ++ "\" width=\"" ++ ratStr c.bar_width
    ++ "\" height=\"" ++ fmt2 bh ++ "\" x=\"" ++ ratStr x ++ "\" y=\"" ++ fmt2 y
    ++ "\" fill=\"" ++ c.bar_color
    ++ (if c.border_radius > 0 then
          "\" rx=\"" ++ ratStr c.border_radius ++ "\" ry=\"" ++ ratStr c.border_radius ++ "\"/>"
        else "\"/>")

/-- The bar loop of `generate_svg`: one rectangle per energy value, with
`bar_height = max(min_bar_height, energy * max_bar_height)`, the running
`x_offset`, and the index-carrying identifier. -/
def barLines (c : SvgCfg) (va : String) (maxH : ℚ) : List ℚ → ℕ → ℚ → List String
  | [], _, _ => []
  | e :: rest, i, x =>
    let bh := max c.min_bar_height (e * maxH)
    barRectLine i c bh (barY va c.height bh) x
      :: barLines c va maxH rest (i + 1) (x + c.bar_width + c.bar_spacing)

/-- The markup lines produced by `generate_svg` (the code joins them with
a newline): root element, optional background rectangle, the bar group,
and the closing tags. -/
def generate_svg (spectrum : List ℚ) (c : SvgCfg) (va : String) : List String :=
  let w := svgWidth spectrum.length c
  let h := c.height
  let maxH := h * (c.max_bar_height_percent / 100)
  ["<svg xmlns=\"http://www.w3.org/2000/svg\" width=\"" ++ ratStr w ++ "\" height=\""
      ++ ratStr h ++ "\" viewBox=\"0 0 " ++ ratStr w ++ " " ++ ratStr h ++ "\">"]
    ++ (if c.background_color ≠ "" then
          ["  <rect width=\"" ++ ratStr w ++ "\" height=\"" ++ ratStr h ++ "\" fill=\""
              ++ c.background_color ++ "\"/>"]
        else [])
    ++ ["  <g id=\"spectrum\">"]
    ++ barLines c va maxH spectrum 0 0
    ++ ["  </g>", "</svg>"]

/-- The returned SVG text: `'\n'.join(svg_lines)`. -/
def generate_svg_string (spectrum : List ℚ) (c : SvgCfg) (va : String) : String :=
  String.intercalate "\n" (generate_svg spectrum c va)

/-- A line of the markup is a spectrum-bar rectangle element exactly when
it starts with the four-space-indented `<rect` opener used only inside
the bar group. -/
def lineIsBarRect (s : String) : Bool := "    <rect".data.isPrefixOf s.data

/-- The bar-height law stated by the specification:
`height_i = max(minBarHeight, e_i * maxBarHeight)` with
`maxBarHeight = canvasHeight * maxBarHeightPercent / 100`. -/
def specBarHeight (c : SvgCfg) (e : ℚ) : ℚ :=
  max c.min_bar_height (e * (c.height * (c.max_bar_height_percent / 100)))

/-! Helper lemmas about the pipeline. -/

/-- Unfolding of `calc_core` on loaded audio with a positive hop length. -/
lemma calc_core_some (samples : List ℚ) (sr : ℕ) (cfg : SpectrumCfg) (mag : List (List ℚ))
    (hhop : 0 < hopLength sr cfg) :
    calc_core (some (samples, sr)) cfg mag =
      (resampleE (frameEnergies (selectRows (freqMask sr cfg) mag) (numFrames mag))
        (resolvedBars samples sr cfg)).bind normalizeE := by
  have h0 : calc_core (some (samples, sr)) cfg mag =
      (if hopLength sr cfg ≤ 0 then Except.error PyErr.stftParam
       else (resampleE (frameEnergies (selectRows (freqMask sr cfg) mag) (numFrames mag))
         (resolvedBars samples sr cfg)).bind normalizeE) := rfl
  rw [h0, if_neg (not_le.mpr hhop)]

lemma normalizeE_nil : normalizeE [] = .error .emptyMax := rfl

lemma linspace01_zero : linspace01 0 = [] := rfl

/-- A non-positive resolved bar count always ends in a NumPy error. -/
lemma pipe_err_of_nonpos (E : List (Option ℚ)) (nb : ℤ) (h : nb ≤ 0) :
    (resampleE E nb).bind normalizeE = .error .negLinspace ∨
    (resampleE E nb).bind normalizeE = .error .emptyMax := by
  unfold resampleE
  rcases lt_or_eq_of_le h with hlt | heq
  · left
    rw [if_neg (by omega : ¬((E.length : ℤ) = nb)), if_pos hlt]
    rfl
  · subst heq
    by_cases hlen : E.length = 0
    · right
      rw [if_pos (by omega)]
      have hE : E = [] := List.length_eq_zero.mp hlen
      subst hE
      rfl
    · right
      have hE : E ≠ [] := fun h' => hlen (by simp [h'])
      rw [if_neg (by omega : ¬((E.length : ℤ) = 0)), if_neg (by omega : ¬((0:ℤ) < 0)),
        if_neg (by simp only [List.isEmpty_iff]; exact hE)]
      have h2 : npInterpList (linspace01 (0:ℤ).toNat) (linspace01 E.length) E = [] := rfl
      rw [h2]
      rfl

/-- C10: calling `calculate_spectrum` while the stored audio data is still
`None` always raises the explicit `ValueError` ("请先加载音频文件") and never
proceeds to compute a spectrum, whatever the configuration and whatever
spectrogram the library would have produced. -/
theorem c10_unloaded_audio_raises (cfg : SpectrumCfg) (mag : List (List ℚ)) :
    calculate_spectrum none cfg mag = .error .notLoaded := rfl

/-- Render configuration used as the concrete counterexample for the
canvas-width claim: one bar of width 10 with spacing 2 (computed width
10) and a configured width of 100. -/
def wideCfg : SvgCfg :=
  { width := 100, height := 50, bar_width := 10, bar_spacing := 2, bar_color := "#3498db",
    border_radius := 0, min_bar_height := 1, max_bar_height_percent := 80,
    background_color := "" }

/-- C2 counterexample: with computed width 10 and configured width 100 the
conditional selects the configured width, so the effective canvas width is
not the computed one — the configured value is selected, refuting the
claim that the conditional always falls back to the computed width. -/
theorem c2_counterexample :
    computedWidth 1 wideCfg = 10 ∧ svgWidth 1 wideCfg = 100 ∧ (100 : ℚ) ≠ 10 := by
  refine ⟨by decide, by decide, by norm_num⟩

/-- C2 (amended): the canvas-width conditional is live, not dead.  The
effective width equals the computed width exactly when the configured
width is zero or smaller than the computed width; otherwise the
configured width is selected (only the true branch's self-assignment is
a no-op). -/
theorem c2_width_resolution (n : ℕ) (c : SvgCfg) :
    (c.width = 0 ∨ c.width < computedWidth n c → svgWidth n c = computedWidth n c) ∧
    (c.width ≠ 0 → computedWidth n c ≤ c.width → svgWidth n c = c.width) := by
  constructor
  · intro h
    unfold svgWidth
    rw [if_pos h]
  · intro h0 hle
    unfold svgWidth
    rw [if_neg (by push_neg; exact ⟨h0, hle⟩)]

/-- Witness for `c2_width_resolution` at the concrete configuration. -/
theorem c2_width_resolution_witness : svgWidth 1 wideCfg = 100 :=
  (c2_width_resolution 1 wideCfg).2 (by norm_num [wideCfg]) (by decide)

/-- Spectrum configuration whose derived bar count exposes the
truncation: 3 samples at rate 2 give duration 1.5 s, and
1.5 * 1.9 = 2.85 bars. -/
def truncCfg : SpectrumCfg :=
  { time_window := 1, num_bars := 0, bars_per_second := 19/10, freq_min := 0, freq_max := 1 }

/-- C3 counterexample: the claim says the resolved bar count is
`round(duration * barsPerSecond)`; at duration 1.5 s and 1.9 bars/s the
code's `int()` truncation yields 2 while rounding yields 3. -/
theorem c3_counterexample :
    resolvedBars [0, 0, 0] 2 truncCfg = 2 ∧
    round ((3 : ℚ) / 2 * (19 / 10)) = (3 : ℤ) ∧ (2 : ℤ) ≠ 3 := by
  refine ⟨by decide, by decide, by decide⟩

/-- C3 (amended): for `numBars ≠ 0` the configured value is used as is;
for `numBars == 0` the resolved count is `int(duration * barsPerSecond)`,
i.e. truncation toward zero, not rounding.  A resolved count below 1 is
not rejected with any `InvalidConfig`; instead the run fails later inside
NumPy (a negative `linspace` count, or `np.max` over an empty array). -/
theorem c3_bar_count_resolution (samples : List ℚ) (sr : ℕ) (cfg : SpectrumCfg)
    (mag : List (List ℚ)) :
    (cfg.num_bars ≠ 0 → resolvedBars samples sr cfg = cfg.num_bars) ∧
    (cfg.num_bars = 0 →
      resolvedBars samples sr cfg =
        pyInt ((samples.length : ℚ) / (sr : ℚ) * cfg.bars_per_second)) ∧
    (0 < hopLength sr cfg → resolvedBars samples sr cfg ≤ 0 →
      calculate_spectrum (some (samples, sr)) cfg mag = .error .negLinspace ∨
      calculate_spectrum (some (samples, sr)) cfg mag = .error .emptyMax) := by
  refine ⟨fun h => by rw [resolvedBars, if_neg h], fun h => by rw [resolvedBars, if_pos h], ?_⟩
  intro hhop hle
  unfold calculate_spectrum
  rw [calc_core_some samples sr cfg mag hhop]
  rcases pipe_err_of_nonpos
      (frameEnergies (selectRows (freqMask sr cfg) mag) (numFrames mag))
      (resolvedBars samples sr cfg) hle with h | h
  · left
    rw [h]
    rfl
  · right
    rw [h]
    rfl

/-- Witness for `c3_bar_count_resolution`: with one sample at rate 1 and
0 bars per second the resolved count is 0 and the run ends in the
`np.max` error. -/
theorem c3_bar_count_resolution_witness :
    calculate_spectrum (some ([0], 1)) { truncCfg with bars_per_second := 0 } [[1]]
        = .error .negLinspace ∨
      calculate_spectrum (some ([0], 1)) { truncCfg with bars_per_second := 0 } [[1]]
        = .error .emptyMax :=
  (c3_bar_count_resolution [0] 1 { truncCfg with bars_per_second := 0 } [[1]]).2.2
    (by decide) (by decide)

/-- Rows selected by an all-false mask: none. -/
lemma selectRows_of_all_false (mask : List Bool) (mag : List (List ℚ))
    (h : ∀ b ∈ mask, b = false) : selectRows mask mag = [] := by
  induction mask generalizing mag with
  | nil => rfl
  | cons b ms ih =>
    cases mag with
    | nil => rfl
    | cons r rs =>
      have hb : b = false := h b (by simp)
      subst hb
      show selectRows ms rs = []
      exact ih rs (fun b hb => h b (by simp [hb]))

/-- Interpolation through an all-NaN value array stays NaN. -/
lemma npInterpPt_all_none (x : ℚ) (l : List (ℚ × Option ℚ))
    (h : ∀ p ∈ l, p.2 = none) : npInterpPt x l = none := by
  induction l with
  | nil => rfl
  | cons p t ih =>
    cases t with
    | nil =>
      obtain ⟨x1, f1⟩ := p
      have h1 : f1 = none := h (x1, f1) (by simp)
      subst h1
      rfl
    | cons q t' =>
      obtain ⟨x1, f1⟩ := p
      obtain ⟨x2, f2⟩ := q
      have h1 : f1 = none := h (x1, f1) (by simp)
      have h2 : f2 = none := h (x2, f2) (by simp)
      subst h1
      subst h2
      have hred : npInterpPt x ((x1, (none : Option ℚ)) :: (x2, none) :: t') =
          if x ≤ x1 then none else if x ≤ x2 then none
          else npInterpPt x ((x2, none) :: t') := rfl
      rw [hred]
      rcases le_or_lt x x1 with hx | hx
      · rw [if_pos hx]
      · rw [if_neg (not_le.mpr hx)]
        rcases le_or_lt x x2 with hx2 | hx2
        · rw [if_pos hx2]
        · rw [if_neg (not_le.mpr hx2)]
          exact ih (fun p hp => h p (by simp at hp ⊢; tauto))

/-- Length of `np.linspace(0, 1, n)`. -/
lemma linspace01_length (n : ℕ) : (linspace01 n).length = n := by
  rw [linspace01]
  split
  next h => rw [h]; rfl
  next h => rw [List.length_map, List.length_range]

/-- Normalization leaves a nonempty all-NaN vector unchanged (the NaN
maximum compares false against zero). -/
lemma normalizeE_replicate_none (n : ℕ) (hn : 1 ≤ n) :
    normalizeE (List.replicate n none) = .ok (List.replicate n none) := by
  have hne : ¬(List.replicate (α := Option ℚ) n none).isEmpty = true := by
    simp [List.isEmpty_iff, List.replicate_eq_nil_iff]
    omega
  have hany : (List.replicate (α := Option ℚ) n none).any (fun o => o.isNone) = true := by
    refine List.any_eq_true.mpr ⟨none, ?_, rfl⟩
    simp [List.mem_replicate]
    omega
  rw [normalizeE, npMaxE, if_neg hne, if_pos hany]
  rfl

/-- With an all-false frequency mask the whole energy array is NaN and a
successful run returns an all-NaN vector of the resolved length. -/
lemma core_all_nan (samples : List ℚ) (sr : ℕ) (cfg : SpectrumCfg) (mag : List (List ℚ))
    (hhop : 0 < hopLength sr cfg)
    (hmask : ∀ b ∈ freqMask sr cfg, b = false)
    (hn : 1 ≤ resolvedBars samples sr cfg)
    (hT : 1 ≤ numFrames mag) :
    calc_core (some (samples, sr)) cfg mag =
      .ok (List.replicate (resolvedBars samples sr cfg).toNat none) := by
  rw [calc_core_some samples sr cfg mag hhop]
  rw [selectRows_of_all_false _ _ hmask]
  set nb := resolvedBars samples sr cfg with hnb
  set T := numFrames mag with hT0
  have hE : frameEnergies [] T = List.replicate T none := by rw [frameEnergies]; rfl
  rw [hE]
  have hlen : (List.replicate (α := Option ℚ) T none).length = T := by simp
  by_cases heq : (T : ℤ) = nb
  · have h1 : resampleE (List.replicate T none) nb = .ok (List.replicate T none) := by
      rw [resampleE, if_pos (by rw [hlen]; exact heq)]
    have hTnb : T = nb.toNat := by omega
    rw [h1]
    show normalizeE (List.replicate T none) = .ok (List.replicate nb.toNat none)
    rw [← hTnb]
    exact normalizeE_replicate_none T hT
  · have h1 : resampleE (List.replicate T none) nb =
        .ok (npInterpList (linspace01 nb.toNat) (linspace01 T) (List.replicate T none)) := by
      rw [resampleE, if_neg (by rw [hlen]; exact heq), if_neg (by omega)]
      rw [if_neg (by simp [List.isEmpty_iff, List.replicate_eq_nil_iff]; omega), hlen]
    rw [h1]
    have h2 : npInterpList (linspace01 nb.toNat) (linspace01 T) (List.replicate T none) =
        List.replicate nb.toNat none := by
      rw [npInterpList]
      have hall : ∀ p ∈ (linspace01 T).zip (List.replicate (α := Option ℚ) T none),
          p.2 = none := by
        intro p hp
        exact List.eq_of_mem_replicate (List.of_mem_zip hp).2
      calc (linspace01 nb.toNat).map
            (fun x => npInterpPt x ((linspace01 T).zip (List.replicate T none)))
          = (linspace01 nb.toNat).map (fun _ => (none : Option ℚ)) :=
            List.map_congr_left (fun x _ => npInterpPt_all_none x _ hall)
        _ = List.replicate (linspace01 nb.toNat).length none := List.map_const' _ none
        _ = List.replicate nb.toNat none := by rw [linspace01_length]
    rw [h2]
    show normalizeE (List.replicate nb.toNat none) = .ok (List.replicate nb.toNat none)
    exact normalizeE_replicate_none nb.toNat (by omega)

/-- Configuration with an inverted frequency band (`freq_min ≥ freq_max`)
used to refute the validation claim; all its other fields are valid. -/
def invCfg : SpectrumCfg :=
  { time_window := 1, num_bars := 2, bars_per_second := 1, freq_min := 30, freq_max := 20 }

/-- C1 counterexample: with `freq_min = 30 ≥ 20 = freq_max` and a
nonempty buffer, `calculate_spectrum` does not fail at all — there is no
`InvalidConfig`; it returns an all-NaN vector. -/
theorem c1_counterexample :
    invCfg.freq_min ≥ invCfg.freq_max ∧ ([0, 0, 0] : List ℚ) ≠ [] ∧
    calculate_spectrum (some ([0, 0, 0], 4)) invCfg (List.replicate 5 [1]) =
      .ok [none, none] := by
  refine ⟨by decide, by simp, ?_⟩
  have h : calc_core (some ([0, 0, 0], 4)) invCfg (List.replicate 5 [1]) =
      .ok [none, none] := by decide
  rw [calculate_spectrum, h]
  rfl

/-- C1 (amended): `calculate_spectrum` performs none of the claimed
validations and has no `InvalidConfig`/`EmptyAudio` failures; with an
inverted band (and any loaded buffer) every run that reaches the end
succeeds, returning a NaN-filled vector of the resolved length. -/
theorem c1_no_validation (samples : List ℚ) (sr : ℕ) (cfg : SpectrumCfg)
    (mag : List (List ℚ))
    (hinv : cfg.freq_max < cfg.freq_min)
    (hhop : 0 < hopLength sr cfg)
    (hn : 1 ≤ resolvedBars samples sr cfg)
    (hT : 1 ≤ numFrames mag) :
    calculate_spectrum (some (samples, sr)) cfg mag =
      .ok (List.replicate (resolvedBars samples sr cfg).toNat none) := by
  have hmask : ∀ b ∈ freqMask sr cfg, b = false := by
    intro b hb
    rw [freqMask] at hb
    obtain ⟨f, hf, rfl⟩ := List.mem_map.mp hb
    simp only [decide_eq_false_iff_not]
    rintro ⟨h1, h2⟩
    exact absurd (le_trans h1 h2) (not_le.mpr hinv)
  rw [calculate_spectrum, core_all_nan samples sr cfg mag hhop hmask hn hT]
  simp [Except.map]

/-- Witness for `c1_no_validation` at the counterexample configuration. -/
theorem c1_no_validation_witness :
    calculate_spectrum (some ([0, 0, 0], 4)) invCfg (List.replicate 5 [1]) =
      .ok (List.replicate 2 none) := by
  have h := c1_no_validation [0, 0, 0] 4 invCfg (List.replicate 5 [1])
    (by decide) (by decide) (by decide) (by decide)
  have hr : (resolvedBars [0, 0, 0] 4 invCfg).toNat = 2 := by decide
  rw [hr] at h
  exact h

/-- Valid configuration (0 ≤ freq_min < freq_max, positive window) whose
band [0.6 Hz, 0.7 Hz] contains no FFT bin at sample rate 4 (bins are
0, 0.5, 1, 1.5, 2 Hz). -/
def gapCfg : SpectrumCfg :=
  { time_window := 1, num_bars := 2, bars_per_second := 1, freq_min := 3/5, freq_max := 7/10 }

/-- C4 counterexample: with no bin in the (valid) band, the run indeed
does not fail, but the raw frame energies are NaN — the mean of an empty
slice — and the resulting vector entries are NaN, not 0. -/
theorem c4_counterexample :
    freqMask 4 gapCfg = List.replicate 5 false ∧
    frameEnergies (selectRows (freqMask 4 gapCfg) (List.replicate 5 [1]))
        (numFrames (List.replicate 5 [1])) = [none] ∧
    calculate_spectrum (some ([0, 0, 0], 4)) gapCfg (List.replicate 5 [1]) =
      .ok [none, none] ∧
    (none : Option ℝ) ≠ some 0 := by
  refine ⟨by decide, by decide, ?_, by simp⟩
  have h : calc_core (some ([0, 0, 0], 4)) gapCfg (List.replicate 5 [1]) =
      .ok [none, none] := by decide
  rw [calculate_spectrum, h]
  rfl

/-- C4 (amended): when no frequency bin's centre lies in
`[freq_min, freq_max]`, the analysis does not fail, but every frame's raw
energy is NaN (NumPy's mean of an empty slice), and hence every entry of
the resulting vector is NaN rather than 0. -/
theorem c4_empty_band_gives_nan (samples : List ℚ) (sr : ℕ) (cfg : SpectrumCfg)
    (mag : List (List ℚ))
    (hmask : ∀ b ∈ freqMask sr cfg, b = false)
    (hhop : 0 < hopLength sr cfg)
    (hn : 1 ≤ resolvedBars samples sr cfg)
    (hT : 1 ≤ numFrames mag) :
    frameEnergies (selectRows (freqMask sr cfg) mag) (numFrames mag) =
      List.replicate (numFrames mag) none ∧
    calculate_spectrum (some (samples, sr)) cfg mag =
      .ok (List.replicate (resolvedBars samples sr cfg).toNat none) := by
  constructor
  · rw [selectRows_of_all_false _ _ hmask, frameEnergies]
    rfl
  · rw [calculate_spectrum, core_all_nan samples sr cfg mag hhop hmask hn hT]
    simp [Except.map]

/-- Witness for `c4_empty_band_gives_nan`, exercising the resampling
path (one frame resampled to three bars, all NaN). -/
theorem c4_empty_band_witness :
    frameEnergies (selectRows (freqMask 4 { gapCfg with num_bars := 3 }) (List.replicate 5 [2]))
        (numFrames (List.replicate 5 [2])) = List.replicate 1 none ∧
    calculate_spectrum (some ([0, 0, 0], 4)) { gapCfg with num_bars := 3 }
        (List.replicate 5 [2]) = .ok (List.replicate 3 none) := by
  have h := c4_empty_band_gives_nan [0, 0, 0] 4 { gapCfg with num_bars := 3 }
    (List.replicate 5 [2]) (by decide) (by decide) (by decide) (by decide)
  have hr : (resolvedBars [0, 0, 0] 4 { gapCfg with num_bars := 3 }).toNat = 3 := by decide
  rw [hr] at h
  exact h

/-- Every selected row comes from the magnitude matrix. -/
lemma mem_of_mem_selectRows (mask : List Bool) (mag : List (List ℚ)) (r : List ℚ)
    (h : r ∈ selectRows mask mag) : r ∈ mag := by
  induction mask generalizing mag with
  | nil => exact absurd h (by simp [selectRows])
  | cons b ms ih =>
    cases mag with
    | nil => exact absurd h (by simp [selectRows])
    | cons m ms' =>
      cases b with
      | true =>
        rcases (by simpa [selectRows] using h : r = m ∨ r ∈ selectRows ms ms') with h' | h'
        · simp [h']
        · exact List.mem_cons_of_mem m (ih ms' h')
      | false =>
        exact List.mem_cons_of_mem m (ih ms' (by simpa [selectRows] using h))

/-- A mask that is true somewhere (and no longer than the matrix) selects
at least one row. -/
lemma selectRows_ne_nil (mask : List Bool) (mag : List (List ℚ))
    (hlen : mask.length ≤ mag.length) (htrue : true ∈ mask) :
    selectRows mask mag ≠ [] := by
  induction mask generalizing mag with
  | nil => exact absurd htrue (by simp)
  | cons b ms ih =>
    cases mag with
    | nil => simp at hlen
    | cons m ms' =>
      cases b with
      | true => simp [selectRows]
      | false =>
        have htrue' : true ∈ ms := by simpa using htrue
        simpa [selectRows] using ih ms' (by simpa using hlen) htrue'

/-- Column mean over all-zero rows is zero. -/
lemma colMean_zero (rows : List (List ℚ)) (t : ℕ)
    (hz : ∀ r ∈ rows, ∀ x ∈ r, x = 0) : colMean rows t = 0 := by
  rw [colMean]
  have hsum : (rows.map (fun r => r.getD t 0)).sum = 0 := by
    apply List.sum_eq_zero
    intro x hx
    obtain ⟨r, hr, rfl⟩ := List.mem_map.mp hx
    rw [List.getD_eq_getElem?_getD]
    cases h : r[t]? with
    | none => rfl
    | some a => simpa using hz r hr a (List.getElem?_mem h)
  rw [hsum, zero_div]

/-- Frame energies of a nonempty all-zero selection: all-zero. -/
lemma frameEnergies_zero (rows : List (List ℚ)) (T : ℕ) (hne : rows ≠ [])
    (hz : ∀ r ∈ rows, ∀ x ∈ r, x = 0) :
    frameEnergies rows T = List.replicate T (some 0) := by
  rw [frameEnergies, if_neg (by simpa [List.isEmpty_iff] using hne)]
  calc (List.range T).map (fun t => some (colMean rows t))
      = (List.range T).map (fun _ => some (0:ℚ)) :=
        List.map_congr_left (fun t _ => by rw [colMean_zero rows t hz])
    _ = List.replicate T (some 0) := by rw [List.map_const', List.length_range]

/-- Interpolation through an all-zero value array yields zero. -/
lemma npInterpPt_all_zero (x : ℚ) (l : List (ℚ × Option ℚ)) (hne : l ≠ [])
    (h : ∀ p ∈ l, p.2 = some 0) : npInterpPt x l = some 0 := by
  induction l with
  | nil => exact absurd rfl hne
  | cons p t ih =>
    cases t with
    | nil =>
      obtain ⟨x1, f1⟩ := p
      have h1 : f1 = some 0 := h (x1, f1) (by simp)
      subst h1
      rfl
    | cons q t' =>
      obtain ⟨x1, f1⟩ := p
      obtain ⟨x2, f2⟩ := q
      have h1 : f1 = some 0 := h (x1, f1) (by simp)
      have h2 : f2 = some 0 := h (x2, f2) (by simp)
      subst h1
      subst h2
      have hred : npInterpPt x ((x1, some (0:ℚ)) :: (x2, some 0) :: t') =
          if x ≤ x1 then some 0 else if x ≤ x2 then
            some (0 + (x - x1) * (0 - 0) / (x2 - x1))
          else npInterpPt x ((x2, some 0) :: t') := rfl
      rw [hred]
      rcases le_or_lt x x1 with hx | hx
      · rw [if_pos hx]
      · rw [if_neg (not_le.mpr hx)]
        rcases le_or_lt x x2 with hx2 | hx2
        · rw [if_pos hx2]
          norm_num
        · rw [if_neg (not_le.mpr hx2)]
          exact ih (by simp) (fun p hp => h p (by simp at hp ⊢; tauto))

/-- A left fold by `max` lands on the seed or on a list element. -/
lemma foldl_max_mem (t : List ℚ) : ∀ b : ℚ, t.foldl max b ∈ b :: t := by
  induction t with
  | nil => intro b; simp
  | cons c t ih =>
    intro b
    have h := ih (max b c)
    rw [List.foldl_cons]
    rcases max_choice b c with hm | hm <;> rw [hm] at h ⊢ <;>
      rcases List.mem_cons.mp h with h' | h'
    · simp [h']
    · exact List.mem_cons_of_mem _ (List.mem_cons_of_mem _ h')
    · exact List.mem_cons_of_mem _ (by simp [h'])
    · exact List.mem_cons_of_mem _ (List.mem_cons_of_mem _ h')

/-- The maximum of a nonempty list is one of its elements. -/
lemma qListMax_mem (l : List ℚ) (hne : l ≠ []) : qListMax l ∈ l := by
  cases l with
  | nil => exact absurd rfl hne
  | cons h t =>
    have hf := foldl_max_mem t h
    simpa [qListMax] using hf

lemma filterMap_id_replicate_some (n : ℕ) (q : ℚ) :
    (List.replicate n (some q)).filterMap id = List.replicate n q := by
  induction n with
  | zero => rfl
  | succ k ih => simp [List.replicate_succ, ih]

/-- Normalization of a nonempty all-zero energy vector: the maximum is 0,
`0 > 0` is false, so the division is skipped and the zeros are kept. -/
lemma normalizeE_replicate_zero (n : ℕ) (hn : 1 ≤ n) :
    normalizeE (List.replicate n (some 0)) = .ok (List.replicate n (some 0)) := by
  have hne : ¬(List.replicate (α := Option ℚ) n (some 0)).isEmpty = true := by
    simp [List.isEmpty_iff, List.replicate_eq_nil_iff]
    omega
  have hnone : (List.replicate (α := Option ℚ) n (some 0)).any (fun o => o.isNone) = false := by
    simp only [List.any_eq_false]
    intro o ho
    rw [List.eq_of_mem_replicate ho]
    simp
  have hmax : qListMax ((List.replicate n (some (0:ℚ))).filterMap id) = 0 := by
    rw [filterMap_id_replicate_some]
    have hmem := qListMax_mem (List.replicate n (0:ℚ)) (by simp; omega)
    exact List.eq_of_mem_replicate hmem
  rw [normalizeE, npMaxE, if_neg hne, if_neg (by rw [hnone]; simp), hmax]
  have : ¬(0:ℚ) < 0 := lt_irrefl 0
  simp only [Except.map, this, if_false]

/-- A silent spectrogram with at least one selected bin: the core
pipeline returns all-zero energies of the resolved length and the
normalization division is skipped. -/
lemma core_silent (samples : List ℚ) (sr : ℕ) (cfg : SpectrumCfg) (mag : List (List ℚ))
    (hz : ∀ r ∈ mag, ∀ x ∈ r, x = 0)
    (hlen : (freqMask sr cfg).length ≤ mag.length)
    (htrue : true ∈ freqMask sr cfg)
    (hhop : 0 < hopLength sr cfg)
    (hn : 1 ≤ resolvedBars samples sr cfg)
    (hT : 1 ≤ numFrames mag) :
    calc_core (some (samples, sr)) cfg mag =
      .ok (List.replicate (resolvedBars samples sr cfg).toNat (some 0)) := by
  rw [calc_core_some samples sr cfg mag hhop]
  set rows := selectRows (freqMask sr cfg) mag with hrows
  have hne : rows ≠ [] := selectRows_ne_nil _ _ hlen htrue
  have hzr : ∀ r ∈ rows, ∀ x ∈ r, x = 0 := fun r hr =>
    hz r (mem_of_mem_selectRows _ _ r hr)
  set nb := resolvedBars samples sr cfg with hnb
  set T := numFrames mag with hT0
  rw [frameEnergies_zero rows T hne hzr]
  have hlenr : (List.replicate (α := Option ℚ) T (some 0)).length = T := by simp
  by_cases heq : (T : ℤ) = nb
  · have h1 : resampleE (List.replicate T (some 0)) nb = .ok (List.replicate T (some 0)) := by
      rw [resampleE, if_pos (by rw [hlenr]; exact heq)]
    have hTnb : T = nb.toNat := by omega
    rw [h1]
    show normalizeE (List.replicate T (some 0)) = .ok (List.replicate nb.toNat (some 0))
    rw [← hTnb]
    exact normalizeE_replicate_zero T hT
  · have h1 : resampleE (List.replicate T (some 0)) nb =
        .ok (npInterpList (linspace01 nb.toNat) (linspace01 T)
          (List.replicate T (some 0))) := by
      rw [resampleE, if_neg (by rw [hlenr]; exact heq), if_neg (by omega)]
      rw [if_neg (by simp [List.isEmpty_iff, List.replicate_eq_nil_iff]; omega), hlenr]
    rw [h1]
    have hzip_ne : (linspace01 T).zip (List.replicate (α := Option ℚ) T (some 0)) ≠ [] := by
      have : ((linspace01 T).zip (List.replicate (α := Option ℚ) T (some 0))).length = T := by
        rw [List.length_zip, linspace01_length]
        simp
      intro hcon
      rw [hcon] at this
      simp at this
      omega
    have h2 : npInterpList (linspace01 nb.toNat) (linspace01 T)
        (List.replicate T (some 0)) = List.replicate nb.toNat (some 0) := by
      rw [npInterpList]
      have hall : ∀ p ∈ (linspace01 T).zip (List.replicate (α := Option ℚ) T (some 0)),
          p.2 = some 0 := fun p hp => List.eq_of_mem_replicate (List.of_mem_zip hp).2
      calc (linspace01 nb.toNat).map
            (fun x => npInterpPt x ((linspace01 T).zip (List.replicate T (some 0))))
          = (linspace01 nb.toNat).map (fun _ => (some (0:ℚ) : Option ℚ)) :=
            List.map_congr_left (fun x _ => npInterpPt_all_zero x _ hzip_ne hall)
        _ = List.replicate (linspace01 nb.toNat).length (some 0) := List.map_const' _ _
        _ = List.replicate nb.toNat (some 0) := by rw [linspace01_length]
    rw [h2]
    show normalizeE (List.replicate nb.toNat (some 0)) =
      .ok (List.replicate nb.toNat (some 0))
    exact normalizeE_replicate_zero nb.toNat (by omega)

/-- The compression curve fixes zero: `ln(1 + 0) / ln 11 = 0`. -/
lemma compress_zero : compress 0 = 0 := by
  rw [compress]
  norm_num

/-- Full-band configuration at sample rate 2 (bins 0, 0.5, 1 Hz all lie
in [0, 1]), resampling one frame to two bars. -/
def fullBandCfg : SpectrumCfg :=
  { time_window := 1, num_bars := 2, bars_per_second := 1, freq_min := 0, freq_max := 1 }

/-- C7 counterexample: an all-silent spectrogram together with a valid
band containing no FFT bin yields NaN entries, not zeros, so the claim
fails on such all-silent inputs. -/
theorem c7_counterexample :
    (∀ r ∈ List.replicate 5 ([0] : List ℚ), ∀ x ∈ r, x = 0) ∧
    calculate_spectrum (some ([0, 0, 0], 4)) gapCfg (List.replicate 5 [0]) =
      .ok [none, none] ∧
    ¬(∀ x ∈ [(none : Option ℝ), none], x = some 0) := by
  refine ⟨?_, ?_, by simp⟩
  · intro r hr x hx
    rw [List.eq_of_mem_replicate hr] at hx
    simpa using hx
  · have h : calc_core (some ([0, 0, 0], 4)) gapCfg (List.replicate 5 [0]) =
        .ok [none, none] := by decide
    rw [calculate_spectrum, h]
    rfl

/-- C7 (amended): for an all-silent input whose band selects at least one
frequency bin, the returned vector is all zeros (the global maximum is 0,
so the normalization division is skipped rather than performed); a
nonempty all-zero energy vector passes through normalization unchanged. -/
theorem c7_silent_all_zero (samples : List ℚ) (sr : ℕ) (cfg : SpectrumCfg)
    (mag : List (List ℚ))
    (hz : ∀ r ∈ mag, ∀ x ∈ r, x = 0)
    (hlen : (freqMask sr cfg).length ≤ mag.length)
    (htrue : true ∈ freqMask sr cfg)
    (hhop : 0 < hopLength sr cfg)
    (hn : 1 ≤ resolvedBars samples sr cfg)
    (hT : 1 ≤ numFrames mag) :
    calculate_spectrum (some (samples, sr)) cfg mag =
      .ok (List.replicate (resolvedBars samples sr cfg).toNat (some 0)) ∧
    (∀ n, 1 ≤ n →
      normalizeE (List.replicate n (some 0)) = .ok (List.replicate n (some 0))) := by
  refine ⟨?_, fun n hn' => normalizeE_replicate_zero n hn'⟩
  rw [calculate_spectrum, core_silent samples sr cfg mag hz hlen htrue hhop hn hT]
  simp [Except.map, compress_zero]

/-- Witness for `c7_silent_all_zero`: a silent one-frame spectrogram at
rate 2 with the full band resampled to two bars gives `[0, 0]`. -/
theorem c7_silent_all_zero_witness :
    calculate_spectrum (some ([0, 0], 2)) fullBandCfg [[0], [0], [0]] =
      .ok (List.replicate 2 (some 0)) := by
  have h := (c7_silent_all_zero [0, 0] 2 fullBandCfg [[0], [0], [0]]
    (by decide) (by decide) (by decide) (by decide) (by decide) (by decide)).1
  have hr : (resolvedBars [0, 0] 2 fullBandCfg).toNat = 2 := by decide
  rw [hr] at h
  exact h

/-! Lemmas for the unit-interval invariant (C6). -/

lemma le_foldl_max (t : List ℚ) : ∀ b x : ℚ, x ≤ b → x ≤ t.foldl max b := by
  induction t with
  | nil => intro b x h; simpa using h
  | cons c t ih =>
    intro b x h
    rw [List.foldl_cons]
    exact ih _ x (le_trans h (le_max_left b c))

lemma mem_le_foldl_max (t : List ℚ) : ∀ b x : ℚ, x ∈ t → x ≤ t.foldl max b := by
  induction t with
  | nil => intro b x hx; simp at hx
  | cons c t ih =>
    intro b x hx
    rw [List.foldl_cons]
    rcases List.mem_cons.mp hx with h | h
    · exact le_foldl_max t _ x (h ▸ le_max_right b c)
    · exact ih _ x h

/-- Every element is bounded by the list maximum. -/
lemma le_qListMax (l : List ℚ) (x : ℚ) (hx : x ∈ l) : x ≤ qListMax l := by
  cases l with
  | nil => simp at hx
  | cons h t =>
    rw [qListMax]
    rcases List.mem_cons.mp hx with h' | h'
    · exact le_foldl_max t h x (le_of_eq h')
    · exact mem_le_foldl_max t h x h'

/-- Strict sortedness of the linspace grid. -/
lemma chain'_lt_linspace01 (n : ℕ) : List.Chain' (· < ·) (linspace01 n) := by
  rw [linspace01]
  split
  next => simp
  next h =>
    rcases Nat.lt_or_ge n 2 with h2 | h2
    · interval_cases n
      · simp
      · simp at h
    · have hpos : (0:ℚ) < (n : ℚ) - 1 := by
        have : (2:ℚ) ≤ (n : ℚ) := by exact_mod_cast h2
        linarith
      apply List.Pairwise.chain'
      have hp : (List.range n).Pairwise (· < ·) := List.pairwise_lt_range n
      rw [List.pairwise_map]
      exact hp.imp (fun hab => div_lt_div_of_pos_right (by exact_mod_cast hab) hpos)

/-- Strict sortedness of the first components survives zipping. -/
lemma chain'_zip_fst (xs : List ℚ) (fp : List (Option ℚ))
    (h : List.Chain' (· < ·) xs) :
    List.Chain' (fun p q : ℚ × Option ℚ => p.1 < q.1) (xs.zip fp) := by
  induction xs generalizing fp with
  | nil => simp
  | cons x xt ih =>
    cases fp with
    | nil => simp
    | cons f ft =>
      cases xt with
      | nil => simp
      | cons y yt =>
        cases ft with
        | nil => simp
        | cons g gt =>
          rw [List.zip_cons_cons, List.zip_cons_cons, List.chain'_cons]
          refine ⟨(List.chain'_cons.mp h).1, ?_⟩
          have := ih (g :: gt) (List.chain'_cons.mp h).2
          rwa [List.zip_cons_cons] at this

/-- On a sorted grid carrying only real, non-negative values,
interpolation returns a real, non-negative value. -/
lemma npInterpPt_some_nonneg (x : ℚ) (l : List (ℚ × Option ℚ)) (hne : l ≠ [])
    (hchain : List.Chain' (fun p q : ℚ × Option ℚ => p.1 < q.1) l)
    (hval : ∀ p ∈ l, ∃ q, p.2 = some q ∧ 0 ≤ q) :
    ∃ v, npInterpPt x l = some v ∧ 0 ≤ v := by
  induction l with
  | nil => exact absurd rfl hne
  | cons p t ih =>
    cases t with
    | nil =>
      obtain ⟨x1, f1⟩ := p
      obtain ⟨q, hq, hq0⟩ := hval (x1, f1) (by simp)
      exact ⟨q, by simp only [npInterpPt]; exact hq, hq0⟩
    | cons pq t' =>
      obtain ⟨x1, f1⟩ := p
      obtain ⟨x2, f2⟩ := pq
      obtain ⟨a, ha, ha0⟩ := hval (x1, f1) (by simp)
      obtain ⟨b, hb, hb0⟩ := hval (x2, f2) (by simp)
      have ha' : f1 = some a := ha
      have hb' : f2 = some b := hb
      subst ha'
      subst hb'
      have h12 : x1 < x2 := (List.chain'_cons.mp hchain).1
      have hred : npInterpPt x ((x1, some a) :: (x2, some b) :: t') =
          if x ≤ x1 then some a
          else if x ≤ x2 then some (a + (x - x1) * (b - a) / (x2 - x1))
          else npInterpPt x ((x2, some b) :: t') := rfl
      rw [hred]
      rcases le_or_lt x x1 with hx | hx
      · rw [if_pos hx]
        exact ⟨a, rfl, ha0⟩
      · rw [if_neg (not_le.mpr hx)]
        rcases le_or_lt x x2 with hx2 | hx2
        · rw [if_pos hx2]
          refine ⟨a + (x - x1) * (b - a) / (x2 - x1), rfl, ?_⟩
          have hd : (0:ℚ) < x2 - x1 := sub_pos.mpr h12
          have heq : a + (x - x1) * (b - a) / (x2 - x1) =
              (a * (x2 - x) + b * (x - x1)) / (x2 - x1) := by
            field_simp
            ring
          rw [heq]
          apply div_nonneg _ hd.le
          have h1 : 0 ≤ a * (x2 - x) := mul_nonneg ha0 (by linarith)
          have h2 : 0 ≤ b * (x - x1) := mul_nonneg hb0 (by linarith)
          linarith
        · rw [if_neg (not_le.mpr hx2)]
          exact ih (by simp) (List.chain'_cons.mp hchain).2
            (fun p hp => hval p (List.mem_cons_of_mem _ hp))

/-- Normalization bounds: an all-real, non-negative energy vector comes
out of the normalization step with every entry in [0, 1] (division by the
maximum when it is positive; otherwise the entries were all zero). -/
lemma normalizeE_bounds (e : List (Option ℚ)) (v : List (Option ℚ))
    (h2 : ∀ x ∈ e, ∃ q, x = some q ∧ 0 ≤ q)
    (hok : normalizeE e = .ok v) :
    ∀ x ∈ v, ∃ q : ℚ, x = some q ∧ 0 ≤ q ∧ q ≤ 1 := by
  rw [normalizeE, npMaxE] at hok
  by_cases hemp : e.isEmpty = true
  · rw [if_pos hemp] at hok
    exact absurd hok (by simp [Except.map])
  · rw [if_neg hemp] at hok
    have hnone : e.any (fun o => o.isNone) = false := by
      simp only [List.any_eq_false]
      intro o ho
      obtain ⟨q, rfl, _⟩ := h2 o ho
      simp
    rw [hnone] at hok
    simp only [Bool.false_eq_true, if_false, Except.map] at hok
    set m := qListMax (e.filterMap id) with hm
    have hle : ∀ q : ℚ, some q ∈ e → q ≤ m := by
      intro q hq
      exact le_qListMax _ q (List.mem_filterMap.mpr ⟨some q, hq, rfl⟩)
    by_cases hpos : 0 < m
    · rw [if_pos hpos] at hok
      have hv : v = e.map (Option.map (fun x => x / m)) := by
        injection hok with h'
        exact h'.symm
      subst hv
      intro x hx
      obtain ⟨y, hy, rfl⟩ := List.mem_map.mp hx
      obtain ⟨q, rfl, hq0⟩ := h2 y hy
      refine ⟨q / m, rfl, div_nonneg hq0 hpos.le, ?_⟩
      exact (div_le_one hpos).mpr (hle q hy)
    · rw [if_neg hpos] at hok
      have hv : v = e := by
        injection hok with h'
        exact h'.symm
      subst hv
      intro x hx
      obtain ⟨q, rfl, hq0⟩ := h2 x hx
      have hqm : q ≤ m := hle q hx
      have hq0' : q = 0 := le_antisymm (by linarith [not_lt.mp hpos]) hq0
      exact ⟨q, rfl, hq0, by rw [hq0']; norm_num⟩

/-- Column means over non-negative rows are non-negative. -/
lemma colMean_nonneg (rows : List (List ℚ)) (t : ℕ)
    (hnn : ∀ r ∈ rows, ∀ x ∈ r, 0 ≤ x) : 0 ≤ colMean rows t := by
  rw [colMean]
  apply div_nonneg _ (by positivity)
  apply List.sum_nonneg
  intro x hx
  obtain ⟨r, hr, rfl⟩ := List.mem_map.mp hx
  rw [List.getD_eq_getElem?_getD]
  cases h : r[t]? with
  | none => simp
  | some a => simpa using hnn r hr a (List.getElem?_mem h)

/-- If the core pipeline succeeds on a non-negative spectrogram with a
nonempty band selection, every returned entry is a real value in [0, 1]. -/
lemma core_ok_bounds (samples : List ℚ) (sr : ℕ) (cfg : SpectrumCfg)
    (mag : List (List ℚ)) (v : List (Option ℚ))
    (hnn : ∀ r ∈ mag, ∀ x ∈ r, 0 ≤ x)
    (hlen : (freqMask sr cfg).length ≤ mag.length)
    (htrue : true ∈ freqMask sr cfg)
    (hok : calc_core (some (samples, sr)) cfg mag = .ok v) :
    ∀ x ∈ v, ∃ q : ℚ, x = some q ∧ 0 ≤ q ∧ q ≤ 1 := by
  by_cases hhop : hopLength sr cfg ≤ 0
  · have : calc_core (some (samples, sr)) cfg mag = .error .stftParam := by
      have h0 : calc_core (some (samples, sr)) cfg mag =
          (if hopLength sr cfg ≤ 0 then Except.error PyErr.stftParam
           else (resampleE (frameEnergies (selectRows (freqMask sr cfg) mag) (numFrames mag))
             (resolvedBars samples sr cfg)).bind normalizeE) := rfl
      rw [h0, if_pos hhop]
    rw [this] at hok
    exact absurd hok (by simp)
  · rw [calc_core_some samples sr cfg mag (not_le.mp hhop)] at hok
    set rows := selectRows (freqMask sr cfg) mag with hrows
    set T := numFrames mag with hT
    set E := frameEnergies rows T with hE
    have hrne : rows ≠ [] := selectRows_ne_nil _ _ hlen htrue
    have hEvals : ∀ x ∈ E, ∃ q, x = some q ∧ 0 ≤ q := by
      rw [hE, frameEnergies, if_neg (by simpa [List.isEmpty_iff] using hrne)]
      intro x hx
      obtain ⟨t, ht, rfl⟩ := List.mem_map.mp hx
      exact ⟨colMean rows t, rfl,
        colMean_nonneg rows t (fun r hr => hnn r (mem_of_mem_selectRows _ _ r hr))⟩
    rw [resampleE] at hok
    by_cases heq : (E.length : ℤ) = resolvedBars samples sr cfg
    · rw [if_pos heq] at hok
      simp only [Except.bind] at hok
      exact normalizeE_bounds E v hEvals hok
    · rw [if_neg heq] at hok
      by_cases hneg : resolvedBars samples sr cfg < 0
      · rw [if_pos hneg] at hok
        exact absurd hok (by simp [Except.bind])
      · rw [if_neg hneg] at hok
        by_cases hEemp : E.isEmpty = true
        · rw [if_pos hEemp] at hok
          exact absurd hok (by simp [Except.bind])
        · rw [if_neg hEemp] at hok
          simp only [Except.bind] at hok
          set e2 := npInterpList (linspace01 (resolvedBars samples sr cfg).toNat)
            (linspace01 E.length) E with he2
          have hEne : E ≠ [] := by
            intro hcon
            rw [hcon] at hEemp
            exact hEemp rfl
          have he2vals : ∀ x ∈ e2, ∃ q, x = some q ∧ 0 ≤ q := by
            rw [he2, npInterpList]
            intro x hx
            obtain ⟨p, hp, rfl⟩ := List.mem_map.mp hx
            apply npInterpPt_some_nonneg
            · intro hcon
              have hlz : ((linspace01 E.length).zip E).length = E.length := by
                rw [List.length_zip, linspace01_length, min_self]
              rw [hcon] at hlz
              simp at hlz
              exact hEne (List.length_eq_zero.mp hlz.symm)
            · exact chain'_zip_fst _ _ (chain'_lt_linspace01 E.length)
            · intro p hp
              exact hEvals p.2 (List.of_mem_zip hp).2
          exact normalizeE_bounds e2 v he2vals hok

/-- The compression curve maps [0, 1] into [0, 1]. -/
lemma compress_mem (q : ℝ) (h0 : 0 ≤ q) (h1 : q ≤ 1) :
    0 ≤ compress q ∧ compress q ≤ 1 := by
  have hlog : (0:ℝ) < Real.log 11 := Real.log_pos (by norm_num)
  constructor
  · exact div_nonneg (Real.log_nonneg (by linarith)) hlog.le
  · rw [compress, div_le_one hlog]
    exact Real.log_le_log (by linarith) (by linarith)

/-- C6 (amended): provided at least one frequency bin's centre lies in
the band (and the spectrogram is well-shaped with non-negative
magnitudes, as every real STFT magnitude matrix is), every entry of a
successfully returned energy vector is a real number in [0, 1].  When no
bin is selected the entries are NaN instead (see the counterexample). -/
theorem c6_entries_unit_interval (samples : List ℚ) (sr : ℕ) (cfg : SpectrumCfg)
    (mag : List (List ℚ)) (v : List (Option ℝ))
    (hnn : ∀ r ∈ mag, ∀ x ∈ r, 0 ≤ x)
    (hlen : (freqMask sr cfg).length ≤ mag.length)
    (htrue : true ∈ freqMask sr cfg)
    (hok : calculate_spectrum (some (samples, sr)) cfg mag = .ok v) :
    ∀ x ∈ v, ∃ r : ℝ, x = some r ∧ 0 ≤ r ∧ r ≤ 1 := by
  rw [calculate_spectrum] at hok
  cases hcore : calc_core (some (samples, sr)) cfg mag with
  | error e =>
    rw [hcore] at hok
    exact absurd hok (by simp [Except.map])
  | ok w =>
    rw [hcore] at hok
    have hv : v = w.map (Option.map (fun (q : ℚ) => compress (q : ℝ))) := by
      simp only [Except.map] at hok
      injection hok with h'
      exact h'.symm
    subst hv
    have hw := core_ok_bounds samples sr cfg mag w hnn hlen htrue hcore
    intro x hx
    obtain ⟨y, hy, rfl⟩ := List.mem_map.mp hx
    obtain ⟨q, rfl, hq0, hq1⟩ := hw y hy
    have hc := compress_mem (q : ℝ) (by exact_mod_cast hq0) (by exact_mod_cast hq1)
    exact ⟨compress (q : ℝ), rfl, hc.1, hc.2⟩

/-- C6 counterexample: a fully valid configuration
(0 ≤ freq_min < freq_max, positive window, positive bar count) whose band
contains no FFT bin makes the run succeed with NaN entries — which are
not values in [0, 1]. -/
theorem c6_counterexample :
    (0 ≤ gapCfg.freq_min ∧ gapCfg.freq_min < gapCfg.freq_max ∧
      0 < gapCfg.time_window ∧ 0 < gapCfg.num_bars) ∧
    calculate_spectrum (some ([2, 3, 4], 4)) gapCfg (List.replicate 5 [5]) =
      .ok [none, none] ∧
    ¬∃ r : ℝ, (none : Option ℝ) = some r ∧ 0 ≤ r ∧ r ≤ 1 := by
  refine ⟨by refine ⟨by decide, by decide, by decide, by decide⟩, ?_, by simp⟩
  have h : calc_core (some ([2, 3, 4], 4)) gapCfg (List.replicate 5 [5]) =
      .ok [none, none] := by decide
  rw [calculate_spectrum, h]
  rfl

/-- Witness for `c6_entries_unit_interval` on a one-bin, one-frame run
whose single normalized energy is 1. -/
theorem c6_entries_unit_interval_witness :
    ∃ r : ℝ, (some (compress 1) : Option ℝ) = some r ∧ 0 ≤ r ∧ r ≤ 1 := by
  have hcore : calc_core (some ([0, 0], 2)) { fullBandCfg with num_bars := 1 }
      [[1], [0], [0]] = .ok [some 1] := by decide
  have hok : calculate_spectrum (some ([0, 0], 2)) { fullBandCfg with num_bars := 1 }
      [[1], [0], [0]] = .ok [some (compress 1)] := by
    rw [calculate_spectrum, hcore]
    simp [Except.map]
  exact c6_entries_unit_interval [0, 0] 2 { fullBandCfg with num_bars := 1 }
    [[1], [0], [0]] [some (compress 1)] (by decide) (by decide) (by decide) hok
    (some (compress 1)) (by simp)

/-! Lemmas for the resampling law (C5). -/

lemma linspace01_getElem (n i : ℕ) (h2 : 2 ≤ n) (hi : i < n) :
    (linspace01 n)[i]? = some ((i : ℚ) / ((n : ℚ) - 1)) := by
  rw [linspace01, if_neg (by omega), List.getElem?_map, List.getElem?_range hi]
  rfl

lemma getElem?_zip_of_some {α β : Type} (as : List α) (bs : List β) (i : ℕ)
    (a : α) (b : β) (ha : as[i]? = some a) (hb : bs[i]? = some b) :
    (as.zip bs)[i]? = some (a, b) := by
  rw [List.zip, List.getElem?_zipWith, ha, hb]

lemma getElem?_zip_inv {α β : Type} (as : List α) (bs : List β) (i : ℕ)
    (p : α × β) (h : (as.zip bs)[i]? = some p) :
    as[i]? = some p.1 ∧ bs[i]? = some p.2 := by
  rw [List.zip, List.getElem?_zipWith] at h
  cases ha : as[i]? with
  | none => rw [ha] at h; simp at h
  | some a =>
    cases hb : bs[i]? with
    | none => rw [ha, hb] at h; simp at h
    | some b =>
      rw [ha, hb] at h
      simp only [Option.some.injEq] at h
      rw [← h]
      exact ⟨rfl, rfl⟩

/-- Bracketing law for one interpolation point: if the sample points are
strictly sorted, all values are real, and `x` lies between the `j`-th and
`(j+1)`-st sample points, the result is the linear interpolation of the
`j`-th and `(j+1)`-st values. -/
lemma npInterpPt_bracket (x : ℚ) :
    ∀ (j : ℕ) (l : List (ℚ × Option ℚ)) (xj xj1 a b : ℚ),
      (∀ (i k : ℕ) (pi pk : ℚ × Option ℚ), i < k → l[i]? = some pi → l[k]? = some pk →
        pi.1 < pk.1) →
      (∀ p ∈ l, ∃ q, p.2 = some q) →
      l[j]? = some (xj, some a) → l[j+1]? = some (xj1, some b) →
      xj ≤ x → x ≤ xj1 →
      npInterpPt x l = some (a + (x - xj) * (b - a) / (xj1 - xj)) := by
  intro j
  induction j with
  | zero =>
    intro l xj xj1 a b hsort hval h0 h1 hx1 hx2
    cases l with
    | nil => simp at h0
    | cons p t =>
      cases t with
      | nil => simp at h1
      | cons q t' =>
        have hp : p = (xj, some a) := by simpa using h0
        have hq : q = (xj1, some b) := by simpa using h1
        subst hp
        subst hq
        have hlt : xj < xj1 := hsort 0 1 (xj, some a) (xj1, some b) (by omega)
          (by simp) (by simp)
        have hred : npInterpPt x ((xj, some a) :: (xj1, some b) :: t') =
            if x ≤ xj then some a
            else if x ≤ xj1 then some (a + (x - xj) * (b - a) / (xj1 - xj))
            else npInterpPt x ((xj1, some b) :: t') := rfl
        rw [hred]
        rcases le_or_lt x xj with hx | hx
        · have hxx : x = xj := le_antisymm hx hx1
          subst hxx
          rw [if_pos le_rfl]
          norm_num
        · rw [if_neg (not_le.mpr hx), if_pos hx2]
  | succ j ih =>
    intro l xj xj1 a b hsort hval h0 h1 hx1 hx2
    cases l with
    | nil => simp at h0
    | cons p1 t =>
      cases t with
      | nil => simp at h0
      | cons p2 t'' =>
        obtain ⟨y1, g1⟩ := p1
        obtain ⟨y2, g2⟩ := p2
        obtain ⟨c, hc⟩ := hval (y1, g1) (by simp)
        obtain ⟨d, hd⟩ := hval (y2, g2) (by simp)
        have hc' : g1 = some c := hc
        have hd' : g2 = some d := hd
        subst hc'
        subst hd'
        have hy12 : y1 < y2 := hsort 0 1 (y1, some c) (y2, some d) (by omega)
          (by simp) (by simp)
        have hy1xj : y1 < xj := hsort 0 (j + 1) (y1, some c) (xj, some a) (by omega)
          (by simp) h0
        have hred : npInterpPt x ((y1, some c) :: (y2, some d) :: t'') =
            if x ≤ y1 then some c
            else if x ≤ y2 then some (c + (x - y1) * (d - c) / (y2 - y1))
            else npInterpPt x ((y2, some d) :: t'') := rfl
        rw [hred, if_neg (not_le.mpr (lt_of_lt_of_le hy1xj hx1))]
        rcases le_or_lt x y2 with hxy2 | hxy2
        · cases j with
          | succ j' =>
            have : y2 < xj := hsort 1 (j' + 1 + 1) (y2, some d) (xj, some a)
              (by omega) (by simp) h0
            exact absurd (lt_of_lt_of_le this hx1) (not_lt.mpr hxy2)
          | zero =>
            have hq : (y2, some d) = (xj, some a) := by
              have h0' := h0
              simp only [List.getElem?_cons_succ, List.getElem?_cons_zero] at h0'
              exact Option.some.inj h0'
            have hy2 : y2 = xj := congrArg Prod.fst hq
            have hda : d = a := by
              have := congrArg Prod.snd hq
              simpa using this
            have hxx : x = xj := le_antisymm (hy2 ▸ hxy2) hx1
            have hxy2eq : x = y2 := by rw [hxx, hy2]
            rw [if_pos hxy2]
            have hne : y2 - y1 ≠ 0 := sub_ne_zero.mpr (ne_of_gt hy12)
            have hL : c + (x - y1) * (d - c) / (y2 - y1) = a := by
              rw [hxy2eq, hda]
              field_simp
            have hR : a + (x - xj) * (b - a) / (xj1 - xj) = a := by
              rw [hxx]
              simp
            rw [hL, hR]
        · rw [if_neg (not_le.mpr hxy2)]
          refine ih ((y2, some d) :: t'') xj xj1 a b ?_ ?_ ?_ ?_ hx1 hx2
          · intro i k pi pk hik hi hk
            exact hsort (i + 1) (k + 1) pi pk (by omega)
              (by simpa using hi) (by simpa using hk)
          · intro p hp
            exact hval p (List.mem_cons_of_mem _ hp)
          · simpa using h0
          · simpa using h1

lemma lt_length_of_getElem?_some {α : Type} {l : List α} {i : ℕ} {a : α}
    (h : l[i]? = some a) : i < l.length := by
  by_contra hcon
  rw [List.getElem?_eq_none (by omega)] at h
  exact Option.noConfusion h

/-- Clamping at the head sample point. -/
lemma npInterpPt_le_head (x x1 : ℚ) (f1 : Option ℚ) (t : List (ℚ × Option ℚ))
    (hx : x ≤ x1) : npInterpPt x ((x1, f1) :: t) = f1 := by
  cases t with
  | nil => rfl
  | cons q t' =>
    obtain ⟨x2, f2⟩ := q
    have hred : npInterpPt x ((x1, f1) :: (x2, f2) :: t') =
        if x ≤ x1 then f1
        else if x ≤ x2 then
          match f1, f2 with
          | some a, some b => some (a + (x - x1) * (b - a) / (x2 - x1))
          | _, _ => none
        else npInterpPt x ((x2, f2) :: t') := rfl
    rw [hred, if_pos hx]

lemma linspace01_cons (n : ℕ) (h : 1 ≤ n) : ∃ t, linspace01 n = 0 :: t := by
  match n, h with
  | 1, _ => exact ⟨[], rfl⟩
  | (m+2), _ =>
    refine ⟨(linspace01 (m+2)).tail, ?_⟩
    have hne : linspace01 (m+2) ≠ [] := by
      intro hcon
      have hl2 := linspace01_length (m+2)
      rw [hcon] at hl2
      simp at hl2
    have hhead : (linspace01 (m+2)).head? = some 0 := by
      rw [linspace01, if_neg (by omega), List.range_succ_eq_map, List.map_cons]
      simp
    cases hl : linspace01 (m+2) with
    | nil => exact absurd hl hne
    | cons h0 t =>
      rw [hl] at hhead
      simp only [List.head?_cons, Option.some.injEq] at hhead
      rw [List.tail_cons, hhead]

/-- C5: the resampling law.  (i) For target length `N ≥ 2` and position
`i/(N-1)` bracketed by the `j`-th and `(j+1)`-st source grid points
`j/(M-1)` and `(j+1)/(M-1)`, the resampled value is the linear
interpolation of the two bracketing raw frames.  (ii) For `N = 1` the
single sample point is the first raw frame.  (iii) Raw frames `[0, 1]`
resampled to five points give exactly `[0, 1/4, 1/2, 3/4, 1]`. -/
theorem c5_resampling_law :
    (∀ (raw : List ℚ) (N i j : ℕ) (a b : ℚ),
      2 ≤ N → i < N → j + 1 < raw.length →
      raw[j]? = some a → raw[j + 1]? = some b →
      (j : ℚ) / ((raw.length : ℚ) - 1) ≤ (i : ℚ) / ((N : ℚ) - 1) →
      (i : ℚ) / ((N : ℚ) - 1) ≤ ((j : ℚ) + 1) / ((raw.length : ℚ) - 1) →
      (npInterpList (linspace01 N) (linspace01 raw.length) (raw.map some))[i]? =
        some (some (a +
          ((i : ℚ) / ((N : ℚ) - 1) - (j : ℚ) / ((raw.length : ℚ) - 1)) * (b - a) /
          (((j : ℚ) + 1) / ((raw.length : ℚ) - 1) - (j : ℚ) / ((raw.length : ℚ) - 1))))) ∧
    (∀ (raw : List ℚ) (a : ℚ), raw[0]? = some a →
      npInterpList (linspace01 1) (linspace01 raw.length) (raw.map some) = [some a]) ∧
    npInterpList (linspace01 5) (linspace01 2) (([0, 1] : List ℚ).map some) =
      [some 0, some (1/4), some (1/2), some (3/4), some 1] := by
  refine ⟨?_, ?_, by decide⟩
  · intro raw N i j a b hN hiN hj hja hjb hbr1 hbr2
    set M := raw.length with hM
    have hM2 : 2 ≤ M := by omega
    have hMpos : (0:ℚ) < (M : ℚ) - 1 := by
      have : (2:ℚ) ≤ (M : ℚ) := by exact_mod_cast hM2
      linarith
    rw [npInterpList, List.getElem?_map, linspace01_getElem N i hN hiN, Option.map_some']
    congr 1
    set l := (linspace01 M).zip (raw.map some) with hl
    have hsort : ∀ (i' k' : ℕ) (pi pk : ℚ × Option ℚ), i' < k' →
        l[i']? = some pi → l[k']? = some pk → pi.1 < pk.1 := by
      intro i' k' pi pk hik hi' hk'
      obtain ⟨hia, _⟩ := getElem?_zip_inv _ _ _ _ hi'
      obtain ⟨hka, _⟩ := getElem?_zip_inv _ _ _ _ hk'
      have hi'M : i' < M := by
        have := lt_length_of_getElem?_some hia
        rwa [linspace01_length] at this
      have hk'M : k' < M := by
        have := lt_length_of_getElem?_some hka
        rwa [linspace01_length] at this
      rw [linspace01_getElem M i' hM2 hi'M] at hia
      rw [linspace01_getElem M k' hM2 hk'M] at hka
      have h1 : pi.1 = (i' : ℚ) / ((M : ℚ) - 1) := (Option.some.inj hia).symm
      have h2 : pk.1 = (k' : ℚ) / ((M : ℚ) - 1) := (Option.some.inj hka).symm
      rw [h1, h2]
      exact div_lt_div_of_pos_right (by exact_mod_cast hik) hMpos
    have hval : ∀ p ∈ l, ∃ q, p.2 = some q := by
      intro p hp
      have := (List.of_mem_zip hp).2
      obtain ⟨q, _, hq⟩ := List.mem_map.mp this
      exact ⟨q, hq.symm⟩
    have h0 : l[j]? = some ((j : ℚ) / ((M : ℚ) - 1), some a) := by
      apply getElem?_zip_of_some
      · exact linspace01_getElem M j hM2 (by omega)
      · rw [List.getElem?_map, hja]
        rfl
    have h1 : l[j+1]? = some (((j : ℚ) + 1) / ((M : ℚ) - 1), some b) := by
      have hc : ((j + 1 : ℕ) : ℚ) = (j : ℚ) + 1 := by push_cast; ring
      apply getElem?_zip_of_some
      · rw [linspace01_getElem M (j+1) hM2 (by omega), hc]
      · rw [List.getElem?_map, hjb]
        rfl
    exact npInterpPt_bracket ((i : ℚ) / ((N : ℚ) - 1)) j l _ _ a b hsort hval h0 h1 hbr1 hbr2
  · intro raw a h0
    have hlen : 1 ≤ raw.length := lt_length_of_getElem?_some h0
    cases raw with
    | nil => simp at h0
    | cons r rt =>
      have hra : r = a := by simpa using h0
      subst hra
      obtain ⟨t, ht⟩ := linspace01_cons (r :: rt).length (by simp)
      have h1 : linspace01 1 = [0] := rfl
      rw [npInterpList, h1, List.map_cons, List.map_nil, ht, List.map_cons,
        List.zip_cons_cons, npInterpPt_le_head 0 0 (some r) _ le_rfl]

/-- Witness for `c5_resampling_law` on raw frames `[0, 1, 4]` resampled
to five points: position 1/4 lies between grid points 0 and 1/2, and the
interpolated value is 1/2. -/
theorem c5_resampling_law_witness :
    (npInterpList (linspace01 5) (linspace01 ([0, 1, 4] : List ℚ).length)
      (([0, 1, 4] : List ℚ).map some))[1]? = some (some (1/2)) := by
  have h := c5_resampling_law.1 [0, 1, 4] 5 1 0 0 1 (by norm_num) (by norm_num)
    (by norm_num) (by decide) (by decide) (by norm_num) (by norm_num)
  rw [h]
  norm_num

/-! String lemmas for the markup claims (C8, C9). -/

lemma data_append (s t : String) : (s ++ t).data = s.data ++ t.data := rfl

/-- Whether a pattern is a prefix of `l ++ r` is decided inside `l` when
the pattern is no longer than `l`. -/
lemma nil_isPrefixOf_eq_true (x : List Char) : ([] : List Char).isPrefixOf x = true := by
  cases x <;> rfl

lemma isPrefixOf_append_eq (p l r : List Char) (h : p.length ≤ l.length) :
    p.isPrefixOf (l ++ r) = p.isPrefixOf l := by
  induction p generalizing l with
  | nil => rw [nil_isPrefixOf_eq_true, nil_isPrefixOf_eq_true]
  | cons a as ih =>
    cases l with
    | nil => simp at h
    | cons b bs =>
      show (a == b && as.isPrefixOf (bs ++ r)) = (a == b && as.isPrefixOf bs)
      rw [ih bs (by simpa using h)]

lemma isBar_barRectLine (i : ℕ) (c : SvgCfg) (bh y x : ℚ) :
    lineIsBarRect (barRectLine i c bh y x) = true := by
  simp only [barRectLine, lineIsBarRect, data_append, List.append_assoc]
  rw [isPrefixOf_append_eq _ _ _ (by decide)]
  decide

lemma notBar_header (w h : ℚ) :
    lineIsBarRect ("<svg xmlns=\"http://www.w3.org/2000/svg\" width=\"" ++ ratStr w
      ++ "\" height=\"" ++ ratStr h ++ "\" viewBox=\"0 0 " ++ ratStr w ++ " "
      ++ ratStr h ++ "\">") = false := by
  simp only [lineIsBarRect, data_append, List.append_assoc]
  rw [isPrefixOf_append_eq _ _ _ (by decide)]
  decide

lemma notBar_background (w h : ℚ) (bg : String) :
    lineIsBarRect ("  <rect width=\"" ++ ratStr w ++ "\" height=\"" ++ ratStr h
      ++ "\" fill=\"" ++ bg ++ "\"/>") = false := by
  simp only [lineIsBarRect, data_append, List.append_assoc]
  rw [isPrefixOf_append_eq _ _ _ (by decide)]
  decide

lemma notBar_group_open : lineIsBarRect "  <g id=\"spectrum\">" = false := by decide

lemma notBar_group_close : lineIsBarRect "  </g>" = false := by decide

lemma notBar_svg_close : lineIsBarRect "</svg>" = false := by decide

/-- Closed form of the bar loop: the `k`-th emitted line is the rectangle
for energy `s[k]` at index `i + k` and offset `x + k * (width + spacing)`. -/
lemma barLines_closed (c : SvgCfg) (va : String) (maxH : ℚ) :
    ∀ (s : List ℚ) (i : ℕ) (x : ℚ),
      barLines c va maxH s i x = (List.range s.length).map (fun k =>
        barRectLine (i + k) c (max c.min_bar_height (s.getD k 0 * maxH))
          (barY va c.height (max c.min_bar_height (s.getD k 0 * maxH)))
          (x + (k : ℚ) * (c.bar_width + c.bar_spacing))) := by
  intro s
  induction s with
  | nil => intro i x; rfl
  | cons e s' ih =>
    intro i x
    have hred : barLines c va maxH (e :: s') i x =
        barRectLine i c (max c.min_bar_height (e * maxH))
          (barY va c.height (max c.min_bar_height (e * maxH))) x ::
        barLines c va maxH s' (i + 1) (x + c.bar_width + c.bar_spacing) := rfl
    rw [hred, ih (i + 1) (x + c.bar_width + c.bar_spacing)]
    simp only [List.length_cons, List.range_succ_eq_map, List.map_cons, List.map_map]
    rw [List.cons.injEq]
    refine ⟨?_, ?_⟩
    · simp only [Nat.add_zero, List.getD_cons_zero, Nat.cast_zero, zero_mul, add_zero]
    · apply List.map_congr_left
      intro k hk
      simp only [Function.comp_apply, List.getD_cons_succ]
      have h1 : i + 1 + k = i + (k + 1) := by omega
      have h3 : x + c.bar_width + c.bar_spacing + (k : ℚ) * (c.bar_width + c.bar_spacing)
          = x + ((k + 1 : ℕ) : ℚ) * (c.bar_width + c.bar_spacing) := by
        push_cast
        ring
      rw [h1, h3]

/-- Bar lines pass the bar-rectangle filter untouched. -/
lemma filter_barLines (c : SvgCfg) (va : String) (maxH : ℚ) :
    ∀ (s : List ℚ) (i : ℕ) (x : ℚ),
      (barLines c va maxH s i x).filter lineIsBarRect = barLines c va maxH s i x := by
  intro s
  induction s with
  | nil => intro i x; rfl
  | cons e s' ih =>
    intro i x
    have hred : barLines c va maxH (e :: s') i x =
        barRectLine i c (max c.min_bar_height (e * maxH))
          (barY va c.height (max c.min_bar_height (e * maxH))) x ::
        barLines c va maxH s' (i + 1) (x + c.bar_width + c.bar_spacing) := rfl
    rw [hred, List.filter_cons, isBar_barRectLine, if_pos rfl, ih]

/-- C8: the markup contains exactly one bar rectangle per energy entry,
in vector order: the filtered bar-rectangle lines are precisely the
rectangles at indices `0..N-1` with height
`max(min_bar_height, e_k * maxBarHeight)` at offset
`k * (bar_width + bar_spacing)`; consequently their count equals the
energy-vector length, and every rendered bar height is at least
`min_bar_height`.  (The optional background rectangle is a separate,
two-space-indented element outside the bar group.) -/
theorem c8_bar_rectangle_law (s : List ℚ) (c : SvgCfg) (va : String) :
    (generate_svg s c va).filter lineIsBarRect =
      (List.range s.length).map (fun k =>
        barRectLine k c (specBarHeight c (s.getD k 0))
          (barY va c.height (specBarHeight c (s.getD k 0)))
          ((k : ℚ) * (c.bar_width + c.bar_spacing))) ∧
    ((generate_svg s c va).filter lineIsBarRect).length = s.length ∧
    (∀ e : ℚ, c.min_bar_height ≤ specBarHeight c e) := by
  have h0 : generate_svg s c va =
      ["<svg xmlns=\"http://www.w3.org/2000/svg\" width=\"" ++ ratStr (svgWidth s.length c)
        ++ "\" height=\"" ++ ratStr c.height ++ "\" viewBox=\"0 0 "
        ++ ratStr (svgWidth s.length c) ++ " " ++ ratStr c.height ++ "\">"]
      ++ (if c.background_color ≠ "" then
            ["  <rect width=\"" ++ ratStr (svgWidth s.length c) ++ "\" height=\""
              ++ ratStr c.height ++ "\" fill=\"" ++ c.background_color ++ "\"/>"]
          else [])
      ++ ["  <g id=\"spectrum\">"]
      ++ barLines c va (c.height * (c.max_bar_height_percent / 100)) s 0 0
      ++ ["  </g>", "</svg>"] := rfl
  have hbgf : (if c.background_color ≠ "" then
        ["  <rect width=\"" ++ ratStr (svgWidth s.length c) ++ "\" height=\""
          ++ ratStr c.height ++ "\" fill=\"" ++ c.background_color ++ "\"/>"]
      else []).filter lineIsBarRect = [] := by
    split
    · rw [List.filter_cons, notBar_background]
      simp
    · rfl
  have hmain : (generate_svg s c va).filter lineIsBarRect =
      barLines c va (c.height * (c.max_bar_height_percent / 100)) s 0 0 := by
    rw [h0, List.filter_append, List.filter_append, List.filter_append,
      List.filter_append, hbgf, filter_barLines]
    simp only [List.filter_cons, List.filter_nil, notBar_header, notBar_group_open,
      notBar_group_close, notBar_svg_close, Bool.false_eq_true, if_false,
      List.nil_append, List.append_nil]
  refine ⟨?_, ?_, fun e => le_max_left _ _⟩
  · rw [hmain, barLines_closed]
    apply List.map_congr_left
    intro k hk
    simp only [Nat.zero_add, zero_add, specBarHeight]
  · rw [hmain, barLines_closed c va _ s 0 0]
    rw [List.length_map, List.length_range]

lemma digCh_ne_dot (n : ℕ) : (digCh n != '.') = true := by
  rw [digCh]
  split <;> decide

/-- The run of characters after the final dot of a fixed two-decimal
rendering has length exactly 2. -/
lemma takeWhile_decimals (A B : List Char) (c1 c2 : Char)
    (h1 : (c1 != '.') = true) (h2 : (c2 != '.') = true) :
    ((A ++ (B ++ ('.' :: [c1, c2]))).reverse.takeWhile (fun ch => ch != '.')).length
      = 2 := by
  have hsh : (A ++ (B ++ ('.' :: [c1, c2]))).reverse
      = c2 :: c1 :: '.' :: (B.reverse ++ A.reverse) := by
    simp [List.reverse_append]
  rw [hsh, List.takeWhile_cons, h2, if_pos rfl, List.takeWhile_cons, h1, if_pos rfl,
    List.takeWhile_cons]
  simp

/-- `fmt2` always renders exactly two digits after the decimal point. -/
lemma fmt2_decimals (q : ℚ) :
    ((fmt2 q).data.reverse.takeWhile (fun ch => ch != '.')).length = 2 := by
  have hred : (fmt2 q).data =
      (if roundHalfEven (q * 100) < 0 then ['-'] else [])
      ++ ((toString ((roundHalfEven (q * 100)).natAbs / 100)).data
      ++ ('.' :: [digCh ((roundHalfEven (q * 100)).natAbs / 10),
          digCh ((roundHalfEven (q * 100)).natAbs)])) := rfl
  rw [hred]
  exact takeWhile_decimals _ _ _ _ (digCh_ne_dot _) (digCh_ne_dot _)

/-- C9: serialization is deterministic — two invocations on identical
spectrum, configuration and alignment inputs produce byte-identical
markup (the embedding is a pure function of its inputs: no randomness and
no locale-dependent formatting enters) — and the height/y formatter
always emits exactly two digits after the decimal point. -/
theorem c9_deterministic_serialization :
    (∀ (s₁ s₂ : List ℚ) (c₁ c₂ : SvgCfg) (va₁ va₂ : String),
      s₁ = s₂ → c₁ = c₂ → va₁ = va₂ →
      generate_svg_string s₁ c₁ va₁ = generate_svg_string s₂ c₂ va₂) ∧
    (∀ q : ℚ, ((fmt2 q).data.reverse.takeWhile (fun ch => ch != '.')).length = 2) := by
  refine ⟨?_, fmt2_decimals⟩
  intro s₁ s₂ c₁ c₂ va₁ va₂ h1 h2 h3
  rw [h1, h2, h3]

/-- Witness for `c9_deterministic_serialization` at a concrete call. -/
theorem c9_deterministic_serialization_witness :
    generate_svg_string [1/2, 1] wideCfg "center" =
      generate_svg_string [1/2, 1] wideCfg "center" :=
  c9_deterministic_serialization.1 [1/2, 1] [1/2, 1] wideCfg wideCfg "center" "center"
    rfl rfl rfl
